import Mathlib

/-!
Shallow embedding of the MCP demo client (`client.py`): the plan generator
(`plan_tool_usage`), the per-step reference resolver and default-argument
injection, the sequential executor and summary construction (`process_query`),
and the session loop (`chat_loop`).  External collaborators (the language
model, the MCP tool session, the wall clock) are parameters: the LLM is a
function from prompt text to completion text, a tool call is a function from
the running call index to the returned text (or a raised error), and the
timestamp is a string argument.
-/

namespace MCPDemo

/-- Python values produced by `json.loads`: null, booleans, integers,
floating-point literals (kept as their lexeme; no claim computes with them),
strings, lists, and dicts (association lists in insertion order). -/
inductive Json where
  | null : Json
  | bool (b : Bool) : Json
  | num (n : Int) : Json
  | flt (lexeme : String) : Json
  | str (s : String) : Json
  | arr (xs : List Json) : Json
  | obj (kvs : List (String × Json)) : Json

/-- Python exceptions that the embedded code can raise. -/
inductive PyError where
  | keyError (k : String) : PyError
  | typeError (msg : String) : PyError
  | attributeError (msg : String) : PyError
  | toolError (msg : String) : PyError
  deriving Repr, DecidableEq

mutual

/-- Python `==` on JSON values: structural, `False` across different types
(the `bool`/`int` overlap of Python is irrelevant here — dict keys in the
client are tool names). -/
def jsonBeq : Json → Json → Bool
  | .null, .null => true
  | .bool a, .bool b => a == b
  | .num a, .num b => a == b
  | .flt a, .flt b => a == b
  | .str a, .str b => a == b
  | .arr xs, .arr ys => jsonBeqArr xs ys
  | .obj xs, .obj ys => jsonBeqObj xs ys
  | _, _ => false

/-- Elementwise `jsonBeq` on lists. -/
def jsonBeqArr : List Json → List Json → Bool
  | [], [] => true
  | x :: xs, y :: ys => jsonBeq x y && jsonBeqArr xs ys
  | _, _ => false

/-- Elementwise `jsonBeq` on key/value pair lists. -/
def jsonBeqObj : List (String × Json) → List (String × Json) → Bool
  | [], [] => true
  | (k, v) :: xs, (k', v') :: ys => k == k' && jsonBeq v v' && jsonBeqObj xs ys
  | _, _ => false

end

/-! ### Python dict primitives (insertion-ordered association lists,
parameterised by the key equality Python's hashing would use) -/

/-- Python `d.get(k)` / `d[k]`: first binding of `k`, if any. -/
def dictGet? {α β : Type} (beq : α → α → Bool) :
    List (α × β) → α → Option β
  | [], _ => none
  | (k', v) :: rest, k => if beq k k' then some v else dictGet? beq rest k

/-- Python `k in d`. -/
def dictContains {α β : Type} (beq : α → α → Bool)
    (d : List (α × β)) (k : α) : Bool :=
  (dictGet? beq d k).isSome

/-- Python `d[k] = v`: updates the existing binding in place (CPython keeps the
original position of an updated key) or appends a new one. -/
def dictSet {α β : Type} (beq : α → α → Bool) :
    List (α × β) → α → β → List (α × β)
  | [], k, v => [(k, v)]
  | (k', v') :: rest, k, v =>
      if beq k k' then (k', v) :: rest else (k', v') :: dictSet beq rest k v

/-! ### Python string primitives -/

/-- Whitespace stripped by Python's no-argument `str.strip()` (ASCII range). -/
def pyWs : List Char := [' ', '\t', '\n', '\r', '\x0b', '\x0c']

/-- Python `s.strip(chars)`: drop characters of the set from both ends. -/
def pyStripChars (s : String) (chars : List Char) : String :=
  ⟨((s.data.dropWhile (· ∈ chars)).reverse.dropWhile (· ∈ chars)).reverse⟩

/-- Python `s.strip()` with no argument. -/
def pyStrip (s : String) : String := pyStripChars s pyWs

/-- Python `s.lower()` (ASCII range, enough for the `quit` sentinel). -/
def pyLower (s : String) : String := ⟨s.data.map Char.toLower⟩

/-- Is the first list an initial segment of the second. -/
def listIsPref : List Char → List Char → Bool
  | [], _ => true
  | _ :: _, [] => false
  | a :: as, b :: bs => a == b && listIsPref as bs

/-- Python `s.startswith(p)`. -/
def pyStartsWith (s p : String) : Bool := listIsPref p.data s.data

/-- Python `s.endswith(p)`. -/
def pyEndsWith (s p : String) : Bool := listIsPref p.data.reverse s.data.reverse

/-- Python `os.path.join(a, b)` for the shapes the client uses: an absolute second
component replaces the first, otherwise the two are joined with `/`. -/
def pathJoin (a b : String) : String :=
  if pyStartsWith b "/" then b
  else if pyEndsWith a "/" then a ++ b
  else a ++ "/" ++ b

/-! ### `json.loads`

A recursive-descent parser for the JSON accepted by Python's `json.loads`
(default options): the exact whitespace set ` \t\n\r`, strict strings
(unescaped control characters rejected), `NaN`/`Infinity`/`-Infinity`
accepted, numbers per the `(0|[1-9]\d*)(\.\d+)?([eE][+-]?\d+)?` grammar,
duplicate object keys resolved last-wins at the first key's position, and no
trailing garbage.  Recursion is fueled by the input length. -/

def jsonWs : List Char := [' ', '\t', '\n', '\r']

def skipWs (cs : List Char) : List Char := cs.dropWhile (· ∈ jsonWs)

def isHexDigit (c : Char) : Bool :=
  c.isDigit || ('a' ≤ c && c ≤ 'f') || ('A' ≤ c && c ≤ 'F')

def hexVal (c : Char) : Nat :=
  if c.isDigit then c.toNat - '0'.toNat
  else if 'a' ≤ c && c ≤ 'f' then c.toNat - 'a'.toNat + 10
  else c.toNat - 'A'.toNat + 10

/-- Parse the body of a JSON string (opening quote already consumed). -/
def parseJStr : Nat → List Char → Option (String × List Char)
  | 0, _ => none
  | _, [] => none
  | fuel + 1, c :: rest =>
    if c = '"' then some ("", rest)
    else if c = '\\' then
      match rest with
      | [] => none
      | e :: rest' =>
        let cont (ch : Char) (tail : List Char) : Option (String × List Char) :=
          match parseJStr fuel tail with
          | some (s, r) => some (⟨ch :: s.data⟩, r)
          | none => none
        if e = '"' then cont '"' rest'
        else if e = '\\' then cont '\\' rest'
        else if e = '/' then cont '/' rest'
        else if e = 'b' then cont '\x08' rest'
        else if e = 'f' then cont '\x0c' rest'
        else if e = 'n' then cont '\n' rest'
        else if e = 'r' then cont '\r' rest'
        else if e = 't' then cont '\t' rest'
        else if e = 'u' then
          match rest' with
          | h1 :: h2 :: h3 :: h4 :: rest'' =>
            if isHexDigit h1 && isHexDigit h2 && isHexDigit h3 && isHexDigit h4 then
              let n := ((hexVal h1 * 16 + hexVal h2) * 16 + hexVal h3) * 16 + hexVal h4
              cont (Char.ofNat n) rest''
            else none
          | _ => none
        else none
    else if c.toNat < 32 then none  -- strict mode rejects raw control chars
    else
      match parseJStr fuel rest with
      | some (s, r) => some (⟨c :: s.data⟩, r)
      | none => none

/-- Digits prefix and the rest. -/
def takeDigits (cs : List Char) : List Char × List Char :=
  (cs.takeWhile Char.isDigit, cs.dropWhile Char.isDigit)

def digitsToNat (ds : List Char) : Nat :=
  ds.foldl (fun acc c => acc * 10 + (c.toNat - '0'.toNat)) 0

/-- Parse a JSON number at the head of `cs` (first char already known to be
a digit or `-`).  Returns the value and the rest. -/
def parseJNum (cs : List Char) : Option (Json × List Char) :=
  let (neg, cs₁) := match cs with
    | '-' :: rest => (true, rest)
    | _ => (false, cs)
  match cs₁ with
  | [] => none
  | d :: _ =>
    if !d.isDigit then none
    else
      let (intDs, cs₂) := takeDigits cs₁
      -- leading zeros rejected: "0" alone, or nonzero first digit
      if d = '0' ∧ intDs.length ≠ 1 then none
      else
        let (fracDs, cs₃) := match cs₂ with
          | '.' :: rest =>
            let (ds, r) := takeDigits rest
            (some ds, r)
          | _ => (none, cs₂)
        if fracDs = some [] then none
        else
          let (expDs, cs₄) := match cs₃ with
            | e :: rest =>
              if e = 'e' ∨ e = 'E' then
                let rest' := match rest with
                  | s :: r => if s = '+' ∨ s = '-' then r else rest
                  | [] => rest
                let (ds, r) := takeDigits rest'
                (some ds, r)
              else (none, cs₃)
            | [] => (none, cs₃)
          if expDs = some [] then none
          else
            let consumed := cs.length - cs₄.length
            let lexeme : List Char := cs.take consumed
            if fracDs = none ∧ expDs = none then
              let v : Int := Int.ofNat (digitsToNat intDs)
              some (Json.num (if neg then -v else v), cs₄)
            else
              some (Json.flt ⟨lexeme⟩, cs₄)

def stripPrefixL (p cs : List Char) : Option (List Char) :=
  match p, cs with
  | [], rest => some rest
  | _ :: _, [] => none
  | a :: ps, c :: rest => if a = c then stripPrefixL ps rest else none

mutual

/-- Parse one JSON value at the head (leading whitespace already skipped). -/
def parseJVal : Nat → List Char → Option (Json × List Char)
  | 0, _ => none
  | _, [] => none
  | fuel + 1, c :: rest =>
    if c = '"' then
      match parseJStr (c :: rest).length rest with
      | some (s, r) => some (Json.str s, r)
      | none => none
    else if c = '[' then
      let cs' := skipWs rest
      match cs' with
      | ']' :: r => some (Json.arr [], r)
      | _ =>
        match parseJItems fuel cs' with
        | some (xs, r) => some (Json.arr xs, r)
        | none => none
    else if c = '{' then
      let cs' := skipWs rest
      match cs' with
      | '}' :: r => some (Json.obj [], r)
      | _ =>
        match parseJMembers fuel cs' with
        | some (pairs, r) =>
            some (Json.obj (pairs.foldl (fun d kv => dictSet (· == ·) d kv.1 kv.2) []), r)
        | none => none
    else if c = 't' then
      match stripPrefixL ['r', 'u', 'e'] rest with
      | some r => some (Json.bool true, r)
      | none => none
    else if c = 'f' then
      match stripPrefixL ['a', 'l', 's', 'e'] rest with
      | some r => some (Json.bool false, r)
      | none => none
    else if c = 'n' then
      match stripPrefixL ['u', 'l', 'l'] rest with
      | some r => some (Json.null, r)
      | none => none
    else if c = 'N' then
      match stripPrefixL ['a', 'N'] rest with
      | some r => some (Json.flt "NaN", r)
      | none => none
    else if c = 'I' then
      match stripPrefixL ['n', 'f', 'i', 'n', 'i', 't', 'y'] rest with
      | some r => some (Json.flt "Infinity", r)
      | none => none
    else if c == '-' && (match rest with | 'I' :: _ => true | _ => false) then
      match stripPrefixL ['I', 'n', 'f', 'i', 'n', 'i', 't', 'y'] rest with
      | some r => some (Json.flt "-Infinity", r)
      | none => none
    else if c = '-' ∨ c.isDigit then
      parseJNum (c :: rest)
    else none

/-- Parse `value (ws , ws value)*` inside an array. -/
def parseJItems : Nat → List Char → Option (List Json × List Char)
  | 0, _ => none
  | fuel + 1, cs =>
    match parseJVal fuel cs with
    | none => none
    | some (v, r) =>
      let r' := skipWs r
      match r' with
      | ']' :: r'' => some ([v], r'')
      | ',' :: r'' =>
        match parseJItems fuel (skipWs r'') with
        | some (xs, r''') => some (v :: xs, r''')
        | none => none
      | _ => none

/-- Parse `pair (ws , ws pair)*` inside an object, returning the raw pairs in
parse order; the caller folds them into a dict, which gives Python's
duplicate-key semantics (last value wins, first position kept). -/
def parseJMembers : Nat → List Char → Option (List (String × Json) × List Char)
  | 0, _ => none
  | fuel + 1, cs =>
    match cs with
    | '"' :: rest =>
      match parseJStr cs.length rest with
      | none => none
      | some (k, r) =>
        match skipWs r with
        | ':' :: r' =>
          match parseJVal fuel (skipWs r') with
          | none => none
          | some (v, r'') =>
            match skipWs r'' with
            | '}' :: r''' => some ([(k, v)], r''')
            | ',' :: r''' =>
              match parseJMembers fuel (skipWs r''') with
              | some (kvs, r4) => some ((k, v) :: kvs, r4)
              | none => none
            | _ => none
        | _ => none
    | _ => none

end

/-- Python `json.loads`: parse a complete document, rejecting trailing garbage. -/
def pyJsonLoads (s : String) : Option Json :=
  let cs := skipWs s.data
  match parseJVal (cs.length + 1) cs with
  | some (v, r) => if skipWs r = [] then some v else none
  | none => none

/-! ### The fence-extraction regex of `plan_tool_usage`

The source applies `re.search` with the *raw* string pattern
` ```(?:json)?\\s*([\s\S]+?)\\s*``` `.  Because the pattern is a raw string,
`\\s*` reaches the regex engine as an escaped backslash followed by `s*`:
it matches one literal backslash character and then a run of letter-`s`
characters — not whitespace.  The functions below implement exactly that
engine behaviour: leftmost match, `(?:json)?` and `s*` greedy with
backtracking, `([\s\S]+?)` lazy. -/

/-- Greedy `s*` directly followed by the closing triple backtick. -/
def sStarTicks : List Char → Option (List Char)
  | '`' :: '`' :: '`' :: rest => some rest
  | 's' :: rest => sStarTicks rest
  | _ => none

/-- The closing part `\` `s*` ` ``` ` of the pattern, at the head of `cs`. -/
def matchBS (cs : List Char) : Bool :=
  match cs with
  | '\\' :: rest => (sStarTicks rest).isSome
  | _ => false

/-- The lazy group `([\s\S]+?)`: the shortest non-empty prefix after which
the closing part matches. -/
def lazyGroup : List Char → Option (List Char)
  | [] => none
  | c :: rest =>
    if matchBS rest then some [c]
    else match lazyGroup rest with
      | some g => some (c :: g)
      | none => none

/-- Greedy `s*` (after the first literal backslash), backtracking from the
longest run of `s` characters, then the lazy group. -/
def afterBSGroup : List Char → Option (List Char)
  | 's' :: rest =>
    match afterBSGroup rest with
    | some g => some g
    | none => lazyGroup ('s' :: rest)
  | cs => lazyGroup cs

/-- After the opening backticks: optional greedy `json`, then the literal
backslash demanded by the (miswritten) `\\s*`. -/
def afterTicksGroup (cs : List Char) : Option (List Char) :=
  let openBS : List Char → Option (List Char) := fun cs' =>
    match cs' with
    | '\\' :: rest => afterBSGroup rest
    | _ => none
  match cs with
  | 'j' :: 's' :: 'o' :: 'n' :: cs2 =>
    (match openBS cs2 with
     | some g => some g
     | none => openBS cs)
  | _ => openBS cs

/-- Try the whole pattern anchored at the head of `cs`. -/
def matchAtGroup : List Char → Option (List Char)
  | '`' :: '`' :: '`' :: cs => afterTicksGroup cs
  | _ => none

/-- Python `re.search`: first position (left to right) where the pattern matches;
returns the captured group. -/
def reSearchFence : List Char → Option (List Char)
  | [] => none
  | c :: rest =>
    match matchAtGroup (c :: rest) with
    | some g => some g
    | none => reSearchFence rest

/-- The `json_text` that `plan_tool_usage` hands to `json.loads` (lines
153–158): the stripped completion, with the regex's captured group taking
its place when the (miswritten) fence pattern matches somewhere. -/
def planPayload (completion : String) : String :=
  let content := pyStrip completion
  match reSearchFence content.data with
  | some g => (⟨g⟩ : String)
  | none => content

/-- Function `plan_tool_usage`, from the LLM's completion text onward (the prompt
construction and the network call are external): strip the completion, run
the fence regex, fall back to the whole text, `json.loads` it, return the
parsed list, or `[]` when parsing fails or yields a non-list (lines
160–165: the `except` branch prints a diagnostic and returns `[]`, so no
error escapes). -/
def plan_tool_usage (completion : String) : List Json :=
  match pyJsonLoads (planPayload completion) with
  | some (Json.arr xs) => xs
  | some _ => []
  | none => []

/-! ### The executor of `process_query` -/

/-- Subscripting `step["name"]` / `step["arguments"]`: subscripting an arbitrary parsed
JSON value, with CPython's error classes. -/
def getItem (step : Json) (field : String) : Except PyError Json :=
  match step with
  | .obj kvs =>
    match dictGet? (· == ·) kvs field with
    | some v => .ok v
    | none => .error (.keyError field)
  | .str _ => .error (.typeError "string indices must be integers")
  | .arr _ => .error (.typeError "list indices must be integers")
  | _ => .error (.typeError "object is not subscriptable")

/-- Python `tool_args.items()`: only dicts have `.items`. -/
def asItems (v : Json) : Except PyError (List (String × Json)) :=
  match v with
  | .obj kvs => .ok kvs
  | _ => .error (.attributeError "items")

/-- One argument value through the reference resolver (`client.py` lines
84–88): a string of the shape `{{...}}` has `{`, `}` and space stripped from
both ends; if `tool_outputs` holds that key the stored text replaces the
value, otherwise the original placeholder string is kept. -/
def resolveVal (outputs : List (Json × String)) (v : Json) : Json :=
  match v with
  | .str s =>
    if pyStartsWith s "\x7b\x7b" && pyEndsWith s "\x7d\x7d" then
      let ref_key := pyStripChars s ['\x7b', '\x7d', ' ']
      Json.str ((dictGet? jsonBeq outputs (Json.str ref_key)).getD s)
    else Json.str s
  | v => v

/-- The resolver pass over a step's whole argument dict. -/
def resolveArgs (outputs : List (Json × String))
    (args : List (String × Json)) : List (String × Json) :=
  args.map (fun kv => (kv.1, resolveVal outputs kv.2))

/-- Default-argument injection (`client.py` lines 90–93). -/
def injectDefaults (toolName : Json) (mdFilename mdPath : String)
    (args : List (String × Json)) : List (String × Json) :=
  let args1 :=
    if jsonBeq toolName (Json.str "analyze_sentiment")
        && !dictContains (· == ·) args "filename" then
      dictSet (· == ·) args "filename" (Json.str mdFilename)
    else args
  if jsonBeq toolName (Json.str "send_email_with_attachment")
      && !dictContains (· == ·) args1 "attachment_path" then
    dictSet (· == ·) args1 "attachment_path" (Json.str mdPath)
  else args1

/-- Transcript records of the `messages` list: the initial user message and
one `{role: "tool", tool_call_id: tool_name, content: text}` record per
tool invocation. -/
inductive Message where
  | user (content : String) : Message
  | tool (tool_call_id : Json) (content : String) : Message

/-- The executor's running state within one query: the `tool_outputs` dict,
the `messages` transcript, plus an observation trace of the tool invocations
actually issued (tool name and the arguments passed) and the running count
of calls, which indexes the external tool session. -/
structure ExecState where
  toolOutputs : List (Json × String)
  messages : List Message
  calls : List (Json × List (String × Json))
  callIdx : Nat

/-- One iteration of the `for step in tool_plan` loop: read `name` and
`arguments`, resolve references against the current outputs, inject the
default arguments, call the tool (the external session is a function from
the running call index to returned text or a raised error), then record the
output and the transcript line. -/
def execStep (mdFilename mdPath : String)
    (callTool : Nat → Except PyError String)
    (st : ExecState) (step : Json) : Except PyError ExecState := do
  let toolName ← getItem step "name"
  let argsJson ← getItem step "arguments"
  let items ← asItems argsJson
  let args := injectDefaults toolName mdFilename mdPath
    (resolveArgs st.toolOutputs items)
  let text ← callTool st.callIdx
  pure { toolOutputs := dictSet jsonBeq st.toolOutputs toolName text,
         messages := st.messages ++ [Message.tool toolName text],
         calls := st.calls ++ [(toolName, args)],
         callIdx := st.callIdx + 1 }

/-- The whole plan loop, left to right. -/
def execPlan (mdFilename mdPath : String)
    (callTool : Nat → Except PyError String) :
    ExecState → List Json → Except PyError ExecState
  | st, [] => .ok st
  | st, step :: rest => do
    let st' ← execStep mdFilename mdPath callTool st step
    execPlan mdFilename mdPath callTool st' rest

/-- The `name` field of a step, when the step is a dict carrying one. -/
def stepName? (step : Json) : Option Json :=
  match step with
  | .obj kvs => dictGet? (· == ·) kvs "name"
  | _ => none

/-- The `arguments` field of a step, when the step is a dict carrying a dict
there. -/
def stepArgs? (step : Json) : Option (List (String × Json)) :=
  match step with
  | .obj kvs =>
    match dictGet? (· == ·) kvs "arguments" with
    | some (Json.obj a) => some a
    | _ => none
  | _ => none

/-- A step the executor can process without raising: a dict with a `name`
key and a dict under `arguments`. -/
def StepWF (step : Json) : Prop :=
  (stepName? step).isSome = true ∧ (stepArgs? step).isSome = true

/-- The invocation a step produces when resolved against the given
ToolOutputs: the tool name and the arguments after the resolver pass and
default injection. -/
def callOfStep (md mp : String) (outputs : List (Json × String))
    (step : Json) : Json × List (String × Json) :=
  ((stepName? step).getD Json.null,
   injectDefaults ((stepName? step).getD Json.null) md mp
     (resolveArgs outputs ((stepArgs? step).getD [])))

/-! ### `process_query` -/

/-- Name `md_filename` (`client.py` line 70): note the f-string uses the query as
passed in, before the `strip` on line 73. -/
def mdFilenameOf (query timestamp : String) : String :=
  "search_" ++ query ++ "_" ++ timestamp ++ ".md"

/-- Name `md_path` (`client.py` line 71). -/
def mdPathOf (query timestamp : String) : String :=
  pathJoin "./search_results" (mdFilenameOf query timestamp)

/-- The augmented query text handed to `plan_tool_usage` (line 73). -/
def planningQuery (query timestamp : String) : String :=
  pyStrip query ++ " [md_filename=" ++ mdFilenameOf query timestamp
    ++ "] [md_path=" ++ mdPathOf query timestamp ++ "]"

/-- What one processed query returns: the printed summary and the executor's
final state. -/
structure QueryResult where
  summary : String
  finalState : ExecState

/-- The fresh state at the top of a query's execution loop. -/
def initState (q : String) : ExecState :=
  { toolOutputs := [], messages := [Message.user q], calls := [], callIdx := 0 }

/-- Function `process_query`: generate names, augment the query, plan (the language
model is a function from the forwarded prompt text to its completion text),
execute, and return the fixed summary string naming `md_path`. -/
def process_query (query timestamp : String) (llm : String → String)
    (callTool : Nat → Except PyError String) : Except PyError QueryResult :=
  match execPlan (mdFilenameOf query timestamp) (mdPathOf query timestamp)
      callTool (initState (planningQuery query timestamp))
      (plan_tool_usage (llm (planningQuery query timestamp))) with
  | .ok st =>
      .ok { summary := "文档已生成并保存在: " ++ mdPathOf query timestamp,
            finalState := st }
  | .error e => .error e

/-! ### `chat_loop` -/

/-- What the loop prints for one query: the AI reply line or the error
message of the caught exception. -/
inductive LoopEvent where
  | reply (text : String) : LoopEvent
  | errorMsg (e : PyError) : LoopEvent
  deriving Repr, DecidableEq

/-- Function `chat_loop` over a list of successfully read input lines, from the given
query index: each line is stripped; a case-insensitive `quit` breaks; any
error raised during the query's processing is caught, reported as a message,
and the loop continues with the next input.  Per-query externals (timestamp,
model, tool session) are abstracted by indexing `runQuery` with the query's
position. -/
def chat_loop (runQuery : Nat → String → Except PyError String) :
    List String → Nat → List LoopEvent
  | [], _ => []
  | q :: rest, i =>
    let q' := pyStrip q
    if pyLower q' = "quit" then []
    else
      match runQuery i q' with
      | .ok r => LoopEvent.reply r :: chat_loop runQuery rest (i + 1)
      | .error e => LoopEvent.errorMsg e :: chat_loop runQuery rest (i + 1)

/-! Dictionary lemmas -/

theorem dictGet?_resolveArgs (o : List (Json × String))
    (args : List (String × Json)) (k : String) :
    dictGet? (· == ·) (resolveArgs o args) k
      = (dictGet? (· == ·) args k).map (resolveVal o) := by
  induction args with
  | nil => rfl
  | cons kv rest ih =>
    by_cases hk : (k == kv.1) = true
    · simp [resolveArgs, dictGet?, hk]
    · simp only [Bool.not_eq_true] at hk
      simp [resolveArgs, dictGet?, hk] at ih ⊢
      exact ih

theorem dictContains_resolveArgs (o : List (Json × String))
    (args : List (String × Json)) (k : String) :
    dictContains (· == ·) (resolveArgs o args) k
      = dictContains (· == ·) args k := by
  simp [dictContains, dictGet?_resolveArgs]

theorem dictGet?_dictSet_self {β : Type} (d : List (String × β)) (k : String)
    (v : β) :
    dictGet? (· == ·) (dictSet (· == ·) d k v) k = some v := by
  induction d with
  | nil => simp [dictGet?, dictSet]
  | cons kv rest ih =>
    by_cases hk : (k == kv.1) = true
    · simp [dictGet?, dictSet, hk]
    · simp only [Bool.not_eq_true] at hk
      simp [dictGet?, dictSet, hk, ih]

theorem dictGet?_dictSet_ne {β : Type} (d : List (String × β)) (k k' : String)
    (v : β) (h : (k == k') = false) :
    dictGet? (· == ·) (dictSet (· == ·) d k' v) k = dictGet? (· == ·) d k := by
  induction d with
  | nil => simp [dictGet?, dictSet, h]
  | cons kv rest ih =>
    by_cases hk : (k' == kv.1) = true
    · have hkk : (k == kv.1) = false := by
        rcases Bool.eq_false_iff.mp h with _
        have : k' = kv.1 := by simpa using hk
        subst this
        exact h
      simp [dictGet?, dictSet, hk, hkk]
    · simp only [Bool.not_eq_true] at hk
      by_cases hkv : (k == kv.1) = true
      · simp [dictGet?, dictSet, hk, hkv]
      · simp only [Bool.not_eq_true] at hkv
        simp [dictGet?, dictSet, hk, hkv, ih]

theorem dictContains_dictSet_ne {β : Type} (d : List (String × β))
    (k k' : String) (v : β) (h : (k == k') = false) :
    dictContains (· == ·) (dictSet (· == ·) d k' v) k
      = dictContains (· == ·) d k := by
  simp [dictContains, dictGet?_dictSet_ne d k k' v h]

/-! Executor lemmas -/

/-- A well-shaped step whose tool call answers runs to exactly the state the
source loop body builds: output stored under the tool name, one transcript
record appended, one invocation recorded, call index advanced. -/
theorem execStep_obj (md mp : String) (ct : Nat → Except PyError String)
    (st : ExecState) (kvs : List (String × Json)) (nmJ : Json)
    (items : List (String × Json)) (t : String)
    (hn : dictGet? (· == ·) kvs "name" = some nmJ)
    (ha : dictGet? (· == ·) kvs "arguments" = some (Json.obj items))
    (hct : ct st.callIdx = .ok t) :
    execStep md mp ct st (Json.obj kvs) = .ok
      { toolOutputs := dictSet jsonBeq st.toolOutputs nmJ t,
        messages := st.messages ++ [Message.tool nmJ t],
        calls := st.calls
          ++ [(nmJ, injectDefaults nmJ md mp (resolveArgs st.toolOutputs items))],
        callIdx := st.callIdx + 1 } := by
  simp [execStep, getItem, asItems, hn, ha, hct, Bind.bind, Except.bind,
    Pure.pure, Except.pure]

/-- Characterisation of a fully well-shaped, fully answered run, from any
starting state: execution succeeds, appends exactly one invocation record
per step in list order, and the record of step `i` is built by resolving
step `i`'s arguments against the state reached after the first `i` steps. -/
theorem execPlan_wf_char (md mp : String) (ct : Nat → Except PyError String)
    (hok : ∀ n, ∃ t, ct n = .ok t) :
    ∀ (plan : List Json) (st : ExecState), (∀ s ∈ plan, StepWF s) →
    ∃ (stf : ExecState) (ext : List (Json × List (String × Json))),
      execPlan md mp ct st plan = .ok stf
      ∧ stf.calls = st.calls ++ ext
      ∧ ext.length = plan.length
      ∧ ∀ i, i < plan.length →
          ∃ stI step, plan[i]? = some step
            ∧ execPlan md mp ct st (plan.take i) = .ok stI
            ∧ ext[i]? = some (callOfStep md mp stI.toolOutputs step) := by
  intro plan
  induction plan with
  | nil =>
    intro st _
    exact ⟨st, [], rfl, by simp, rfl, fun i hi => absurd hi (by simp)⟩
  | cons step rest ih =>
    intro st hwf
    obtain ⟨hn, ha⟩ := hwf step (List.mem_cons_self _ _)
    obtain ⟨nm, hnm⟩ := Option.isSome_iff_exists.mp hn
    obtain ⟨items, hit⟩ := Option.isSome_iff_exists.mp ha
    cases step with
    | obj kvs =>
      simp only [stepName?] at hnm
      have harg : dictGet? (· == ·) kvs "arguments" = some (Json.obj items) := by
        cases hv : dictGet? (· == ·) kvs "arguments" with
        | none => simp [stepArgs?, hv] at hit
        | some v =>
          cases v <;> simp [stepArgs?, hv] at hit
          rw [hit]
      obtain ⟨t, ht⟩ := hok st.callIdx
      have e1 := execStep_obj md mp ct st kvs nm items t hnm harg ht
      obtain ⟨stf, ext1, hrun, hcalls, hlen, hidx⟩ := ih
        { toolOutputs := dictSet jsonBeq st.toolOutputs nm t,
          messages := st.messages ++ [Message.tool nm t],
          calls := st.calls
            ++ [(nm, injectDefaults nm md mp (resolveArgs st.toolOutputs items))],
          callIdx := st.callIdx + 1 }
        (fun s hs => hwf s (List.mem_cons_of_mem _ hs))
      have hc0 : callOfStep md mp st.toolOutputs (Json.obj kvs)
          = (nm, injectDefaults nm md mp (resolveArgs st.toolOutputs items)) := by
        simp [callOfStep, stepName?, stepArgs?, hnm, harg]
      refine ⟨stf, callOfStep md mp st.toolOutputs (Json.obj kvs) :: ext1,
        ?_, ?_, ?_, ?_⟩
      · simp [execPlan, e1, Bind.bind, Except.bind, hrun]
      · rw [hcalls, hc0]
        simp
      · simp [hlen]
      · intro i hi
        cases i with
        | zero => exact ⟨st, Json.obj kvs, by simp, rfl, by simp⟩
        | succ j =>
          obtain ⟨stI, stepJ, hsj, hrunJ, hextJ⟩ := hidx j (by
            simpa [Nat.succ_lt_succ_iff] using hi)
          refine ⟨stI, stepJ, by simpa using hsj, ?_, by simpa using hextJ⟩
          simp [execPlan, e1, Bind.bind, Except.bind, hrunJ]
    | null => simp [stepName?] at hnm
    | bool b => simp [stepName?] at hnm
    | num n => simp [stepName?] at hnm
    | flt s => simp [stepName?] at hnm
    | str s => simp [stepName?] at hnm
    | arr xs => simp [stepName?] at hnm

/-! Claims -/

/-- C1: the claim states that a model response of exactly
```` ```json⏎[{"name":"search_google","arguments":{"keyword":"x"}}]⏎``` ````
parses to the same one-step plan as the raw unfenced array.  On the code it
does not: the raw-string pattern `` ```(?:json)?\\s*([\s\S]+?)\\s*``` ``
requires a literal backslash character on each side of the payload, so the
fence is never stripped, `json.loads` fails on the backticked text, and the
fenced response yields the empty plan while the raw array yields the
one-step plan. -/
theorem claim1_fenced_response_not_extracted :
    plan_tool_usage "```json\n[\x7b\"name\":\"search_google\",\"arguments\":\x7b\"keyword\":\"x\"\x7d\x7d]\n```" = []
  ∧ plan_tool_usage "[\x7b\"name\":\"search_google\",\"arguments\":\x7b\"keyword\":\"x\"\x7d\x7d]"
      = [Json.obj [("name", Json.str "search_google"),
                   ("arguments", Json.obj [("keyword", Json.str "x")])]]
  ∧ plan_tool_usage "```json\n[\x7b\"name\":\"search_google\",\"arguments\":\x7b\"keyword\":\"x\"\x7d\x7d]\n```"
      ≠ plan_tool_usage "[\x7b\"name\":\"search_google\",\"arguments\":\x7b\"keyword\":\"x\"\x7d\x7d]" := by
  refine ⟨rfl, rfl, fun h => ?_⟩
  exact List.noConfusion
    (show ([] : List Json)
        = [Json.obj [("name", Json.str "search_google"),
                     ("arguments", Json.obj [("keyword", Json.str "x")])]] from h)

/-- C2: a string argument value of the placeholder form, with `{`, `}` and
space stripped from both ends giving the candidate name: when ToolOutputs
holds that name the value is replaced by the stored output text, and when it
does not the original placeholder string is passed through unchanged (the
resolver is a total function — no error is raised). -/
theorem claim2_placeholder_resolution
    (outputs : List (Json × String)) (val name : String)
    (h1 : pyStartsWith val "\x7b\x7b" = true)
    (h2 : pyEndsWith val "\x7d\x7d" = true)
    (h3 : pyStripChars val ['\x7b', '\x7d', ' '] = name) :
    (∀ o, dictGet? jsonBeq outputs (Json.str name) = some o →
        resolveVal outputs (Json.str val) = Json.str o)
  ∧ (dictGet? jsonBeq outputs (Json.str name) = none →
        resolveVal outputs (Json.str val) = Json.str val) := by
  constructor
  · intro o ho
    simp [resolveVal, h1, h2, h3, ho]
  · intro ho
    simp [resolveVal, h1, h2, h3, ho]

/-- Witness for C2: with ToolOutputs `{"search_google": "RESULT"}` the value
`"{{search_google}}"` is rewritten to `"RESULT"`, and with empty ToolOutputs
it is left unchanged. -/
theorem claim2_witness :
    resolveVal [(Json.str "search_google", "RESULT")]
        (Json.str "\x7b\x7bsearch_google\x7d\x7d") = Json.str "RESULT"
  ∧ resolveVal [] (Json.str "\x7b\x7bsearch_google\x7d\x7d")
      = Json.str "\x7b\x7bsearch_google\x7d\x7d" :=
  ⟨(claim2_placeholder_resolution
      [(Json.str "search_google", "RESULT")]
      "\x7b\x7bsearch_google\x7d\x7d" "search_google" rfl rfl rfl).1 "RESULT" rfl,
   (claim2_placeholder_resolution
      [] "\x7b\x7bsearch_google\x7d\x7d" "search_google" rfl rfl rfl).2 rfl⟩

/-- C3: whenever the payload does not parse as a JSON list — parse failure
or a parsed value that is not a list — `plan_tool_usage` returns the empty
plan; it is a total function, so no error is raised. -/
theorem claim3_unparseable_response_yields_empty_plan
    (completion : String)
    (h : ∀ xs, pyJsonLoads (planPayload completion) ≠ some (Json.arr xs)) :
    plan_tool_usage completion = [] := by
  unfold plan_tool_usage
  split
  · rename_i xs heq
    exact absurd heq (h xs)
  · rfl
  · rfl

/-- Witness for C3: the non-JSON response `"I cannot help with that"`
yields the empty plan. -/
theorem claim3_witness : plan_tool_usage "I cannot help with that" = [] :=
  claim3_unparseable_response_yields_empty_plan "I cannot help with that"
    (fun _ h => Option.noConfusion h)

/-- C4: for a plan of N well-shaped steps whose tool calls all succeed, the
executor issues exactly N invocations, in the plan's list order; the i-th
invocation carries the i-th step's tool name and its arguments as resolved —
immediately before that invocation — against exactly the ToolOutputs state
produced by executing the first i steps (so it sees all earlier steps'
writes and no later ones). -/
theorem claim4_sequential_execution_in_order
    (md mp q : String) (ct : Nat → Except PyError String) (plan : List Json)
    (hwf : ∀ s ∈ plan, StepWF s) (hok : ∀ n, ∃ t, ct n = .ok t) :
    ∃ st, execPlan md mp ct (initState q) plan = .ok st
      ∧ st.calls.length = plan.length
      ∧ ∀ i, i < plan.length →
          ∃ stI step, plan[i]? = some step
            ∧ execPlan md mp ct (initState q) (plan.take i) = .ok stI
            ∧ st.calls[i]? = some (callOfStep md mp stI.toolOutputs step) := by
  obtain ⟨stf, ext, hrun, hcalls, hlen, hidx⟩ :=
    execPlan_wf_char md mp ct hok plan (initState q) hwf
  have hc : stf.calls = ext := by simpa [initState] using hcalls
  refine ⟨stf, hrun, by rw [hc, hlen], fun i hi => ?_⟩
  rw [hc]
  exact hidx i hi

/-- Witness for C4: a concrete two-step plan (search, then sentiment over
the search output) with an always-answering tool session. -/
theorem claim4_witness : ∃ st,
    execPlan "f.md" "./search_results/f.md" (fun _ => Except.ok "OUT")
        (initState "q")
        [Json.obj [("name", Json.str "search_google"),
                   ("arguments", Json.obj [("keyword", Json.str "x")])],
         Json.obj [("name", Json.str "analyze_sentiment"),
                   ("arguments", Json.obj
                     [("text", Json.str "\x7b\x7bsearch_google\x7d\x7d")])]]
      = .ok st
      ∧ st.calls.length = 2
      ∧ ∀ i, i < 2 →
          ∃ stI step,
            ([Json.obj [("name", Json.str "search_google"),
                        ("arguments", Json.obj [("keyword", Json.str "x")])],
              Json.obj [("name", Json.str "analyze_sentiment"),
                        ("arguments", Json.obj
                          [("text", Json.str "\x7b\x7bsearch_google\x7d\x7d")])]]
              : List Json)[i]? = some step
            ∧ execPlan "f.md" "./search_results/f.md" (fun _ => Except.ok "OUT")
                (initState "q")
                (([Json.obj [("name", Json.str "search_google"),
                             ("arguments", Json.obj [("keyword", Json.str "x")])],
                   Json.obj [("name", Json.str "analyze_sentiment"),
                             ("arguments", Json.obj
                               [("text", Json.str "\x7b\x7bsearch_google\x7d\x7d")])]]
                  : List Json).take i) = .ok stI
            ∧ st.calls[i]?
                = some (callOfStep "f.md" "./search_results/f.md"
                    stI.toolOutputs step) :=
  claim4_sequential_execution_in_order "f.md" "./search_results/f.md" "q"
    (fun _ => Except.ok "OUT")
    [Json.obj [("name", Json.str "search_google"),
               ("arguments", Json.obj [("keyword", Json.str "x")])],
     Json.obj [("name", Json.str "analyze_sentiment"),
               ("arguments", Json.obj
                 [("text", Json.str "\x7b\x7bsearch_google\x7d\x7d")])]]
    (by
      intro s hs
      rcases List.mem_cons.mp hs with rfl | hs2
      · exact ⟨rfl, rfl⟩
      · rcases List.mem_cons.mp hs2 with rfl | hs3
        · exact ⟨rfl, rfl⟩
        · exact absurd hs3 (List.not_mem_nil _))
    (fun _ => ⟨"OUT", rfl⟩)

/-- C5: a plan that invokes the same tool name twice, the calls answering
`t1` then `t2`: after execution the ToolOutputs entry for that name is `t2`
(the later invocation overwrote the earlier one), while the transcript keeps
one tool record per invocation, so both calls' records survive. -/
theorem claim5_same_tool_twice_overwrites_output_keeps_transcript
    (A q md mp t1 t2 : String) (args1 args2 : List (String × Json))
    (ct : Nat → Except PyError String)
    (h0 : ct 0 = .ok t1) (h1 : ct 1 = .ok t2) :
    ∃ st, execPlan md mp ct (initState q)
        [Json.obj [("name", Json.str A), ("arguments", Json.obj args1)],
         Json.obj [("name", Json.str A), ("arguments", Json.obj args2)]] = .ok st
      ∧ dictGet? jsonBeq st.toolOutputs (Json.str A) = some t2
      ∧ st.messages = [Message.user q, Message.tool (Json.str A) t1,
                       Message.tool (Json.str A) t2] := by
  have hself : jsonBeq (Json.str A) (Json.str A) = true := by simp [jsonBeq]
  have e1 : execStep md mp ct (initState q)
      (Json.obj [("name", Json.str A), ("arguments", Json.obj args1)])
      = .ok { toolOutputs := [(Json.str A, t1)],
              messages := [Message.user q, Message.tool (Json.str A) t1],
              calls := [(Json.str A,
                injectDefaults (Json.str A) md mp (resolveArgs [] args1))],
              callIdx := 1 } :=
    execStep_obj md mp ct (initState q) _ (Json.str A) args1 t1 rfl rfl h0
  have e2 : execStep md mp ct
      { toolOutputs := [(Json.str A, t1)],
        messages := [Message.user q, Message.tool (Json.str A) t1],
        calls := [(Json.str A,
          injectDefaults (Json.str A) md mp (resolveArgs [] args1))],
        callIdx := 1 }
      (Json.obj [("name", Json.str A), ("arguments", Json.obj args2)])
      = .ok { toolOutputs := dictSet jsonBeq [(Json.str A, t1)] (Json.str A) t2,
              messages := [Message.user q, Message.tool (Json.str A) t1,
                           Message.tool (Json.str A) t2],
              calls := [(Json.str A,
                  injectDefaults (Json.str A) md mp (resolveArgs [] args1)),
                (Json.str A,
                  injectDefaults (Json.str A) md mp
                    (resolveArgs [(Json.str A, t1)] args2))],
              callIdx := 2 } :=
    execStep_obj md mp ct _ _ (Json.str A) args2 t2 rfl rfl h1
  refine ⟨{ toolOutputs := dictSet jsonBeq [(Json.str A, t1)] (Json.str A) t2,
            messages := [Message.user q, Message.tool (Json.str A) t1,
                         Message.tool (Json.str A) t2],
            calls := [(Json.str A,
                injectDefaults (Json.str A) md mp (resolveArgs [] args1)),
              (Json.str A,
                injectDefaults (Json.str A) md mp
                  (resolveArgs [(Json.str A, t1)] args2))],
            callIdx := 2 }, ?_, ?_, ?_⟩
  · simp [execPlan, e1, e2, Bind.bind, Except.bind]
  · simp [dictSet, dictGet?, hself]
  · rfl

/-- Witness for C5: tool `"A"` called twice with outputs `"first"` then
`"second"`. -/
theorem claim5_witness : ∃ st,
    execPlan "f.md" "./search_results/f.md"
        (fun n => if n = 0 then .ok "first" else .ok "second") (initState "q")
        [Json.obj [("name", Json.str "A"), ("arguments", Json.obj [])],
         Json.obj [("name", Json.str "A"), ("arguments", Json.obj [])]] = .ok st
      ∧ dictGet? jsonBeq st.toolOutputs (Json.str "A") = some "second"
      ∧ st.messages = [Message.user "q", Message.tool (Json.str "A") "first",
                       Message.tool (Json.str "A") "second"] :=
  claim5_same_tool_twice_overwrites_output_keeps_transcript
    "A" "q" "f.md" "./search_results/f.md" "first" "second" [] []
    (fun n => if n = 0 then .ok "first" else .ok "second") rfl rfl

/-- C6: a query whose processing raises is caught at the session loop's
failure boundary: the error is reported as a message and the loop continues;
the next query in the same session is processed normally. -/
theorem claim6_error_does_not_terminate_session
    (runQuery : Nat → String → Except PyError String)
    (q1 q2 : String) (rest : List String) (i : Nat) (e : PyError) (s : String)
    (hq1 : pyLower (pyStrip q1) ≠ "quit")
    (hq2 : pyLower (pyStrip q2) ≠ "quit")
    (he : runQuery i (pyStrip q1) = .error e)
    (hs : runQuery (i + 1) (pyStrip q2) = .ok s) :
    chat_loop runQuery (q1 :: q2 :: rest) i
      = LoopEvent.errorMsg e :: LoopEvent.reply s
          :: chat_loop runQuery rest (i + 2) := by
  simp [chat_loop, hq1, hq2, he, hs]

/-- Witness for C6: the first query raises, the second still gets a normal
reply. -/
theorem claim6_witness :
    chat_loop
      (fun n _ => if n = 0 then .error (PyError.toolError "boom") else .ok "done")
      ["a", "b"] 0
      = [LoopEvent.errorMsg (PyError.toolError "boom"), LoopEvent.reply "done"] :=
  claim6_error_does_not_terminate_session
    (fun n _ => if n = 0 then .error (PyError.toolError "boom") else .ok "done")
    "a" "b" [] 0 (PyError.toolError "boom") "done"
    (by decide) (by decide) rfl rfl

/-- C8: any successfully processed query returns the fixed summary naming
the session artifact path; it is built from `md_path` alone, so two
executions differing only in what the tools returned yield the identical
summary string. -/
theorem claim8_summary_independent_of_tool_outputs
    (query timestamp : String) (llm : String → String)
    (ct1 ct2 : Nat → Except PyError String) (r1 r2 : QueryResult)
    (h1 : process_query query timestamp llm ct1 = .ok r1)
    (h2 : process_query query timestamp llm ct2 = .ok r2) :
    r1.summary = r2.summary
  ∧ r1.summary = "文档已生成并保存在: " ++ mdPathOf query timestamp := by
  have key : ∀ (ct : Nat → Except PyError String) (r : QueryResult),
      process_query query timestamp llm ct = .ok r →
      r.summary = "文档已生成并保存在: " ++ mdPathOf query timestamp := by
    intro ct r h
    unfold process_query at h
    split at h
    · cases h; rfl
    · cases h
  exact ⟨(key ct1 r1 h1).trans (key ct2 r2 h2).symm, key ct1 r1 h1⟩

/-- Witness for C8: same query and timestamp, different tool output texts,
identical summaries. -/
theorem claim8_witness : ∃ r1 r2 : QueryResult,
    process_query "q" "ts" (fun _ => "[]") (fun _ => .ok "A") = .ok r1
  ∧ process_query "q" "ts" (fun _ => "[]") (fun _ => .ok "B") = .ok r2
  ∧ r1.summary = r2.summary := by
  refine ⟨_, _, rfl, rfl, ?_⟩
  exact (claim8_summary_independent_of_tool_outputs "q" "ts" (fun _ => "[]")
    (fun _ => .ok "A") (fun _ => .ok "B") _ _ rfl rfl).1

/-- C9: the text forwarded into planning is the stripped query with the
generated filename and path tags appended, the filename having the shape
`search_<query>_<timestamp>.md` under the fixed directory
`./search_results`; `process_query` consults the model only on that text. -/
theorem claim9_forwarded_planning_text
    (query timestamp : String) (llm₁ llm₂ : String → String)
    (callTool : Nat → Except PyError String)
    (h : llm₁ (planningQuery query timestamp)
        = llm₂ (planningQuery query timestamp)) :
    process_query query timestamp llm₁ callTool
      = process_query query timestamp llm₂ callTool
  ∧ planningQuery query timestamp
      = pyStrip query
        ++ " [md_filename=" ++ ("search_" ++ query ++ "_" ++ timestamp ++ ".md")
        ++ "] [md_path="
        ++ ("./search_results/" ++ ("search_" ++ query ++ "_" ++ timestamp ++ ".md"))
        ++ "]" := by
  constructor
  · unfold process_query
    rw [h]
  · rfl

/-- Witness for C9 at a concrete query and timestamp. -/
theorem claim9_witness :
    process_query "kw" "20240101_000000" (fun q => q) (fun _ => .ok "")
      = process_query "kw" "20240101_000000" (fun q => q ++ "") (fun _ => .ok "")
  ∧ planningQuery "kw" "20240101_000000"
      = pyStrip "kw"
        ++ " [md_filename=" ++ ("search_" ++ "kw" ++ "_" ++ "20240101_000000" ++ ".md")
        ++ "] [md_path="
        ++ ("./search_results/"
            ++ ("search_" ++ "kw" ++ "_" ++ "20240101_000000" ++ ".md"))
        ++ "]" :=
  claim9_forwarded_planning_text "kw" "20240101_000000"
    (fun q => q) (fun q => q ++ "") (fun _ => .ok "")
    (by simp)

/-- C7: a step calling `analyze_sentiment` whose plan arguments omit
`filename` has the session's generated report filename injected; a step
calling `send_email_with_attachment` whose arguments omit `attachment_path`
has the generated report path injected; an argument the plan did supply is
never touched by these defaults, whatever the tool is. -/
theorem claim7_default_argument_injection
    (mdFilename mdPath : String) (outputs : List (Json × String))
    (args : List (String × Json)) :
    (dictContains (· == ·) args "filename" = false →
      dictGet? (· == ·)
          (injectDefaults (Json.str "analyze_sentiment") mdFilename mdPath
            (resolveArgs outputs args)) "filename"
        = some (Json.str mdFilename))
  ∧ (dictContains (· == ·) args "attachment_path" = false →
      dictGet? (· == ·)
          (injectDefaults (Json.str "send_email_with_attachment") mdFilename mdPath
            (resolveArgs outputs args)) "attachment_path"
        = some (Json.str mdPath))
  ∧ (∀ toolName, dictContains (· == ·) args "filename" = true →
      dictGet? (· == ·)
          (injectDefaults toolName mdFilename mdPath (resolveArgs outputs args))
          "filename"
        = dictGet? (· == ·) (resolveArgs outputs args) "filename")
  ∧ (∀ toolName, dictContains (· == ·) args "attachment_path" = true →
      dictGet? (· == ·)
          (injectDefaults toolName mdFilename mdPath (resolveArgs outputs args))
          "attachment_path"
        = dictGet? (· == ·) (resolveArgs outputs args) "attachment_path") := by
  refine ⟨?_, ?_, ?_, ?_⟩
  · intro h
    have hres : dictContains (· == ·) (resolveArgs outputs args) "filename" = false := by
      rw [dictContains_resolveArgs]; exact h
    simp [injectDefaults, jsonBeq, hres, dictGet?_dictSet_self]
  · intro h
    have hres : dictContains (· == ·) (resolveArgs outputs args) "attachment_path" = false := by
      rw [dictContains_resolveArgs]; exact h
    simp [injectDefaults, jsonBeq, hres, dictGet?_dictSet_self]
  · intro toolName h
    have hres : dictContains (· == ·) (resolveArgs outputs args) "filename" = true := by
      rw [dictContains_resolveArgs]; exact h
    simp only [injectDefaults, hres, Bool.not_true, Bool.and_false, if_neg (by simp : ¬(false = true))]
    split
    · exact dictGet?_dictSet_ne _ _ _ _ rfl
    · rfl
  · intro toolName h
    have hres : dictContains (· == ·) (resolveArgs outputs args) "attachment_path" = true := by
      rw [dictContains_resolveArgs]; exact h
    simp only [injectDefaults]
    split
    · rename_i hcond
      have hkeep : dictContains (· == ·)
          (dictSet (· == ·) (resolveArgs outputs args) "filename" (Json.str mdFilename))
          "attachment_path" = true := by
        rw [dictContains_dictSet_ne (resolveArgs outputs args) "attachment_path"
          "filename" (Json.str mdFilename) rfl]
        exact hres
      simp [hkeep]
      exact dictGet?_dictSet_ne _ _ _ _ rfl
    · simp [hres]

/-- Witness for C7: a sentiment step with only `text` gets the session
filename; a step that already carries `filename` keeps its own value. -/
theorem claim7_witness :
    dictGet? (· == ·)
        (injectDefaults (Json.str "analyze_sentiment") "f.md" "./search_results/f.md"
          (resolveArgs [] [("text", Json.str "hello")])) "filename"
      = some (Json.str "f.md")
  ∧ dictGet? (· == ·)
        (injectDefaults (Json.str "analyze_sentiment") "f.md" "./search_results/f.md"
          (resolveArgs [] [("text", Json.str "hello"),
                           ("filename", Json.str "mine.md")])) "filename"
      = some (Json.str "mine.md") :=
  ⟨(claim7_default_argument_injection "f.md" "./search_results/f.md" []
      [("text", Json.str "hello")]).1 rfl,
   ((claim7_default_argument_injection "f.md" "./search_results/f.md" []
      [("text", Json.str "hello"), ("filename", Json.str "mine.md")]).2.2.1
      (Json.str "analyze_sentiment") rfl).trans rfl⟩

/-- C10 (implicit): a parsed plan element that is not a dict with `name` and
`arguments` keys makes the executor raise before that step's tool is ever
invoked — the error is the same whatever the tool session would have
answered and whatever state execution is in — and the error propagates out
of `process_query` to the session loop's boundary, where it is reported and
the loop continues. -/
theorem claim10_malformed_step_raises_before_invocation :
    (∀ (md mp : String) (ct : Nat → Except PyError String) (st : ExecState),
        execStep md mp ct st (Json.str "oops")
          = .error (PyError.typeError "string indices must be integers"))
  ∧ (∀ ct : Nat → Except PyError String,
        process_query "go" "T" (fun _ => "[\"oops\"]") ct
          = .error (PyError.typeError "string indices must be integers"))
  ∧ (∀ (ct : Nat → Except PyError String) (rest : List String) (i : Nat),
        chat_loop
            (fun _ q' =>
              (process_query q' "T" (fun _ => "[\"oops\"]") ct).map QueryResult.summary)
            ("go" :: rest) i
          = LoopEvent.errorMsg (PyError.typeError "string indices must be integers")
              :: chat_loop
                   (fun _ q' =>
                     (process_query q' "T" (fun _ => "[\"oops\"]") ct).map QueryResult.summary)
                   rest (i + 1)) :=
  ⟨fun _ _ _ _ => rfl, fun _ => rfl, fun _ _ _ => rfl⟩

end MCPDemo
